import Mathlib

/-!
Verification of the youtube-app repository: a shallow embedding of
src/store/videoStore.ts, the page handlers of the home / video / gif pages,
and the URL form regex, together with theorems settling the frozen claims.

Machine numbers are modelled as follows: video times (seconds, a JS number)
as rationals, wall-clock timestamps (epoch milliseconds from Date.now) as
integers.  String lengths are counted in characters; this agrees with the
JS UTF-16 length for all code points below 0x10000, which covers every
string manipulated here.
-/

/-! ## Character classes used by the regular expressions -/

/-- JS regex word character, the class denoted by a backslash-w:
letters A-Z a-z, digits, underscore. -/
def isWordChar (c : Char) : Bool :=
  c.isAlpha || c.isDigit || c == '_'

/-- The character class of the form regex identifier group, a-z A-Z 0-9
underscore hyphen (exactly the alphabet of YouTube video identifiers). -/
def isIdChar (c : Char) : Bool :=
  c.isAlpha || c.isDigit || c == '_' || c == '-'

/-- JS line terminators, which the regex dot does not match:
newline, carriage return, U+2028, U+2029. -/
def isLineTerm (c : Char) : Bool :=
  c == '\n' || c == '\r' || c == Char.ofNat 8232 || c == Char.ofNat 8233

/-! ## The extractor regex of videoStore.ts

The source function getYouTubeIdFromUrl matches the url against

  caret dot-star ( youtu.be/ | v/ | u/w/ | embed/ | watch?v= | &v= )
  ( [^#&?]* ) dot-star

(w standing for a word character) and returns group 2 when its length is 11,
else the empty string.  Because the leading dot-star is greedy and the
alternatives start with pairwise distinct characters, group 1 is the
rightmost occurrence of an alternative whose start lies before the first
line terminator, and group 2 is the text that follows it up to the first
'#', '&' or '?' (or the end).  The final dot-star is unanchored and always
matches.  The embedding below implements exactly that reading. -/

/-- Literal prefix test, lazy in the subject list. -/
def matchLit : List Char → List Char → Bool
  | [], _ => true
  | _ :: _, [] => false
  | p :: ps, c :: cs => p == c && matchLit ps cs

def patYoutuBe : List Char := ['y', 'o', 'u', 't', 'u', '.', 'b', 'e', '/']

def patVSlash : List Char := ['v', '/']

def patEmbed : List Char := ['e', 'm', 'b', 'e', 'd', '/']

def patWatchV : List Char := ['w', 'a', 't', 'c', 'h', '?', 'v', '=']

def patAmpV : List Char := ['&', 'v', '=']

/-- Fourth character of the u/w/ alternative: a slash. -/
def uAltD : List Char → Bool
  | d :: _ => d == '/'
  | [] => false

/-- Third character of the u/w/ alternative: a word character. -/
def uAltC : List Char → Bool
  | c :: rest => isWordChar c && uAltD rest
  | [] => false

/-- Second character of the u/w/ alternative: a slash. -/
def uAltB : List Char → Bool
  | b :: rest => b == '/' && uAltC rest
  | [] => false

/-- The alternative u/w/ of the extractor regex (w a word character). -/
def uAlt : List Char → Bool
  | a :: rest => a == 'u' && uAltB rest
  | [] => false

/-- Does one of the six alternatives of group 1 match at the head of cs?
Returns its length.  The alternatives start with pairwise distinct
characters, so at most one matches and the source order is immaterial. -/
def altAt (cs : List Char) : Option Nat :=
  if matchLit patYoutuBe cs then some 9
  else if matchLit patVSlash cs then some 2
  else if uAlt cs then some 4
  else if matchLit patEmbed cs then some 6
  else if matchLit patWatchV cs then some 8
  else if matchLit patAmpV cs then some 3
  else none

/-- Group 2 of the extractor regex: the maximal run of characters other
than '#', '&', '?' (this class does match line terminators). -/
def takeToken : List Char → List Char
  | [] => []
  | c :: rest => if c == '#' || c == '&' || c == '?' then [] else c :: takeToken rest

/-- Scan for the rightmost alternative occurrence whose start position lies
before the first line terminator (the greedy leading dot-star cannot cross
one).  pos is the absolute index of the head of the remaining list; the
result is the absolute end position of the rightmost match, if any. -/
def scanLast : List Char → Nat → Option Nat → Option Nat
  | [], _, best => best
  | c :: rest, pos, best =>
    if isLineTerm c then best
    else
      scanLast rest (pos + 1)
        (match altAt (c :: rest) with
         | some n => some (pos + n)
         | none => best)

/-- Core of getYouTubeIdFromUrl over character lists: group 2 of the match,
if the match exists and group 2 has length 11, else the empty list. -/
def extractId (cs : List Char) : List Char :=
  match scanLast cs 0 none with
  | none => []
  | some j =>
    let tok := takeToken (cs.drop j)
    if tok.length = 11 then tok else []

/-- videoStore.ts getYouTubeIdFromUrl: the extracted 11-character
identifier, or the empty string.  Total: the source matches a regex and
inspects the result, neither of which can throw. -/
def getYouTubeIdFromUrl (url : String) : String :=
  String.mk (extractId url.data)

/-! ## The form regex of YouTubeForm.tsx

YOUTUBE_URL_REGEX is

  caret ( https?:// )? ( www. )? ( youtube.com/watch?v= | youtu.be/ )
  ( [a-zA-Z0-9_-]{11} ) dot-star dollar

Everything is anchored; the optional literals and the two hosts are
prefix-deterministic (whenever an optional literal is present the later
mandatory parts cannot match without consuming it, and the two hosts
diverge at their sixth character), so matching is equivalent to stripping
literals left to right.  The trailing dot-star requires the rest of the
string to contain no line terminator. -/

/-- Strip a mandatory literal prefix. -/
def stripLit (pat cs : List Char) : Option (List Char) :=
  if matchLit pat cs then some (cs.drop pat.length) else none

/-- Strip an optional literal prefix. -/
def stripOpt (pat cs : List Char) : List Char :=
  match stripLit pat cs with
  | some r => r
  | none => cs

def patHttp : List Char := ['h', 't', 't', 'p', ':', '/', '/']

def patHttps : List Char := ['h', 't', 't', 'p', 's', ':', '/', '/']

def patWww : List Char := ['w', 'w', 'w', '.']

def patWatchHost : List Char :=
  ['y', 'o', 'u', 't', 'u', 'b', 'e', '.', 'c', 'o', 'm', '/', 'w', 'a', 't', 'c', 'h', '?', 'v', '=']

def patBeHost : List Char := ['y', 'o', 'u', 't', 'u', '.', 'b', 'e', '/']

/-- The optional scheme group https?:// of the form regex. -/
def stripScheme (cs : List Char) : List Char :=
  match stripLit patHttp cs with
  | some r => r
  | none =>
    match stripLit patHttps cs with
    | some r => r
    | none => cs

/-- Parse the mandatory part of the form regex up to the identifier group;
returns the remainder of the string after the host literal. -/
def formParse (cs : List Char) : Option (List Char) :=
  let cs1 := stripScheme cs
  let cs2 := stripOpt patWww cs1
  match stripLit patWatchHost cs2 with
  | some r => some r
  | none => stripLit patBeHost cs2

/-- YOUTUBE_URL_REGEX.test url: after the host literal there must be 11
identifier characters, and the rest (matched by the final dot-star up to
the dollar anchor) must contain no line terminator. -/
def formAccepts (url : String) : Bool :=
  match formParse url.data with
  | some r =>
    decide (11 ≤ r.length) && (r.take 11).all (fun c => isIdChar c)
      && (r.drop 11).all (fun c => !isLineTerm c)
  | none => false

/-! ## The claim wording of C3, as its own predicate

Claim C3 characterises a non-empty result by an 11-character token
occurring at SOME recognised position, and lists the u-form as
u/letter/ rather than the regex u/w/ with w any word character.  The
predicate below renders that wording; it is compared against the source
behaviour, not derived from it. -/

/-- Third character of the claim's u/letter/ form: a letter. -/
def claimUAltC : List Char → Bool
  | c :: rest => c.isAlpha && uAltD rest
  | [] => false

/-- Second character of the claim's u/letter/ form. -/
def claimUAltB : List Char → Bool
  | b :: rest => b == '/' && claimUAltC rest
  | [] => false

/-- The claim's u/letter/ form. -/
def claimUAlt : List Char → Bool
  | a :: rest => a == 'u' && claimUAltB rest
  | [] => false

/-- One of the recognised positions as worded by claim C3 matches at the
head of cs (u/letter/ variant); returns its length. -/
def claimAltAt (cs : List Char) : Option Nat :=
  if matchLit patYoutuBe cs then some 9
  else if matchLit patVSlash cs then some 2
  else if claimUAlt cs then some 4
  else if matchLit patEmbed cs then some 6
  else if matchLit patWatchV cs then some 8
  else if matchLit patAmpV cs then some 3
  else none

/-- Claim C3's wording: an 11-character token occurs in one of the
recognised URL positions, i.e. at some position a recognised pattern
matches and the text following it, up to the first '#', '&' or '?',
has length 11. -/
def claimTokenOccurs : List Char → Bool
  | [] => false
  | c :: rest =>
    (match claimAltAt (c :: rest) with
     | some n => (takeToken ((c :: rest).drop n)).length == 11
     | none => false) || claimTokenOccurs rest

/-! ## The persisted data model of videoStore.ts -/

/-- The VideoData interface: originalUrl, lastKnownVideoTime (seconds,
a JS number, modelled as a rational), lastKnownSystemTime (epoch
milliseconds from Date.now, modelled as an integer). -/
structure VideoData where
  originalUrl : String
  lastKnownVideoTime : ℚ
  lastKnownSystemTime : ℤ
deriving DecidableEq, Repr

/-- A JS runtime value that can come out of JSON.parse at the call sites of
videoStore.ts.  The source casts the parse result to VideoData without any
shape validation, so besides well-formed records any other JSON value
(number, string, boolean, array, wrong-shaped object, null) can flow out of
getVideoData; those are collapsed into the constructor other, which keeps
only the two facts the program ever consults about them: their JS
truthiness and an identifying tag for the underlying text. -/
inductive JSVal where
  | record (d : VideoData)
  | other (truthy : Bool) (tag : String)
deriving DecidableEq, Repr

/-- A string held in localStorage: either the JSON serialization of some
value (on which JSON.parse succeeds and returns that value), or text that
is not valid JSON (on which JSON.parse throws). -/
inductive StoredValue where
  | ser (v : JSVal)
  | malformed (text : String)
deriving DecidableEq, Repr

/-- JSON.stringify on the values the program stores. -/
def jsonStringify (v : JSVal) : StoredValue := .ser v

/-- JSON.parse wrapped in the try/catch of the caller: none when the text
is rejected (the thrown SyntaxError is caught), the parsed value
otherwise. -/
def jsonParse : StoredValue → Option JSVal
  | .ser v => some v
  | .malformed _ => none

/-- localStorage: an availability flag (access throws when the storage is
disabled, e.g. private browsing; the flag models that) and the key-value
entries.  localStorage keys are unique; setItem on an existing key
replaces its value in place. -/
structure Storage where
  avail : Bool
  entries : List (String × StoredValue)
deriving DecidableEq, Repr

/-- localStorage.getItem over the entry list. -/
def lookupEntry (k : String) : List (String × StoredValue) → Option StoredValue
  | [] => none
  | (k', v) :: rest => if k' == k then some v else lookupEntry k rest

/-- localStorage.setItem over the entry list: replace in place, or append
a fresh entry. -/
def insertEntry (k : String) (v : StoredValue) :
    List (String × StoredValue) → List (String × StoredValue)
  | [] => [(k, v)]
  | (k', v') :: rest => if k' == k then (k, v) :: rest else (k', v') :: insertEntry k v rest

/-- videoStore.ts saveVideoData: no-op on an empty id; stringify and
setItem inside try/catch, so a storage failure leaves the storage
unchanged (the error is only logged). -/
def saveVideoData (videoId : String) (data : JSVal) (st : Storage) : Storage :=
  if videoId == "" then st
  else if st.avail then { st with entries := insertEntry videoId (jsonStringify data) st.entries }
  else st

/-- videoStore.ts getVideoData: null on an empty id; getItem, null when
missing; JSON.parse inside try/catch, null when it throws; otherwise the
parsed value is returned, cast to VideoData without validation (hence the
JSVal result type).  A stored serialized JS null is returned as the value
JSVal.other false, which every caller treats exactly like an absent
result (all of them only test truthiness before use). -/
def getVideoData (videoId : String) (st : Storage) : Option JSVal :=
  if videoId == "" then none
  else if st.avail then
    match lookupEntry videoId st.entries with
    | none => none
    | some sv => jsonParse sv
  else none

/-- videoStore.ts clearVideoData: no-op on an empty id, best-effort
removeItem. -/
def clearVideoData (videoId : String) (st : Storage) : Storage :=
  if videoId == "" then st
  else if st.avail then { st with entries := st.entries.filter (fun e => !(e.1 == videoId)) }
  else st

/-! ## Home page: handleSaveUrl (src/app/page.tsx) -/

/-- handleSaveUrl of the home page, with Date.now passed explicitly.
Extracts the id (early return when extraction fails), loads any existing
value, and saves: an existing truthy record is spread with the new
originalUrl and a fresh lastKnownSystemTime (lastKnownVideoTime carried
over); an absent or falsy existing value leads to a fresh record with
lastKnownVideoTime 0.  Spreading a truthy non-record value yields an
object that lacks a numeric lastKnownVideoTime, hence again a non-record
value; its tag is kept.  The subsequent router.push is navigation, not
state, and is omitted. -/
def handleSaveUrl (url : String) (now : ℤ) (st : Storage) : Storage :=
  let videoId := getYouTubeIdFromUrl url
  if videoId == "" then st
  else
    match getVideoData videoId st with
    | some (.record r) =>
      saveVideoData videoId
        (.record { r with originalUrl := url, lastKnownSystemTime := now }) st
    | some (.other true tag) => saveVideoData videoId (.other true tag) st
    | some (.other false _) => saveVideoData videoId (.record ⟨url, 0, now⟩) st
    | none => saveVideoData videoId (.record ⟨url, 0, now⟩) st

/-! ## Gif page: handleBackToVideo (src/app/gif/page.tsx) -/

/-- handleBackToVideo: when the query carries an id and a truthy value is
stored under it, the value is spread with only lastKnownSystemTime
replaced by now and saved back; then the page navigates (omitted).  An
absent query id or absent/falsy stored value performs no write.  Note the
stored lastKnownVideoTime is deliberately carried over unchanged. -/
def handleBackToVideo (videoId : String) (now : ℤ) (st : Storage) : Storage :=
  if videoId == "" then st
  else
    match getVideoData videoId st with
    | some (.record r) =>
      saveVideoData videoId (.record { r with lastKnownSystemTime := now }) st
    | some (.other true tag) => saveVideoData videoId (.other true tag) st
    | some (.other false _) => st
    | none => st

/-! ## Video page (src/app/video/page.tsx) -/

/-- The resume start time computed in the mount effect of VideoPageContent:
elapsedSystemTimeSeconds is (Date.now() - lastKnownSystemTime) / 1000 and
newStartTime is lastKnownVideoTime + elapsedSystemTimeSeconds, floored at
zero only. -/
def calculatedStartTime (lastKnownVideoTime : ℚ) (lastKnownSystemTime now : ℤ) : ℚ :=
  let elapsedSystemTimeSeconds : ℚ := ((now : ℚ) - (lastKnownSystemTime : ℚ)) / 1000
  let newStartTime := lastKnownVideoTime + elapsedSystemTimeSeconds
  if newStartTime < 0 then 0 else newStartTime

/-- The client state of VideoPageContent once loading finished: playerData
and currentVideoId are then non-null (the mount effect redirects home
otherwise, so handlers only fire in this state), and currentTime starts
at 0 and is set only by handleTimeUpdate. -/
structure PageState where
  videoId : String
  playerData : VideoData
  currentTime : ℚ
  store : Storage
deriving DecidableEq, Repr

/-- handleTimeUpdate: stores the reported playback time in currentTime,
then saves playerData with both lastKnownVideoTime := reported time and
lastKnownSystemTime := now, updating the local state as well. -/
def handleTimeUpdate (t : ℚ) (now : ℤ) (s : PageState) : PageState :=
  let newData : VideoData :=
    { s.playerData with lastKnownVideoTime := t, lastKnownSystemTime := now }
  { s with
    currentTime := t
    playerData := newData
    store := saveVideoData s.videoId (.record newData) s.store }

/-- handlePlayerStateChange: saves playerData with lastKnownVideoTime :=
the time at the state change and lastKnownSystemTime := now.  It does NOT
update currentTime (the source never calls setCurrentTime here); the
isPlaying flag does not influence the saved data. -/
def handlePlayerStateChange (_isPlaying : Bool) (t : ℚ) (now : ℤ) (s : PageState) : PageState :=
  let newData : VideoData :=
    { s.playerData with lastKnownVideoTime := t, lastKnownSystemTime := now }
  { s with
    playerData := newData
    store := saveVideoData s.videoId (.record newData) s.store }

/-- handleBeforeUnload, also invoked from the effect cleanup on unmount:
when playerData and currentVideoId are present (always, in this state)
and currentTime > 0, saves playerData with lastKnownVideoTime :=
currentTime (the last reported time, not extrapolated) and
lastKnownSystemTime := now.  Otherwise nothing is written. -/
def handleBeforeUnload (now : ℤ) (s : PageState) : PageState :=
  if 0 < s.currentTime then
    let newData : VideoData :=
      { s.playerData with lastKnownVideoTime := s.currentTime, lastKnownSystemTime := now }
    { s with store := saveVideoData s.videoId (.record newData) s.store }
  else s

/-- refinedHandleEdit: when playerData.originalUrl and currentVideoId are
truthy, saves playerData with only lastKnownSystemTime := now (the stored
lastKnownVideoTime carried over) and navigates to the prefilled form;
otherwise only navigates. -/
def refinedHandleEdit (videoId : String) (playerData : VideoData) (now : ℤ) (st : Storage) :
    Storage :=
  if playerData.originalUrl == "" || videoId == "" then st
  else saveVideoData videoId (.record { playerData with lastKnownSystemTime := now }) st

/-- The player callbacks that can reach the video page while it is
mounted: a periodic time report (every second while playing) or a
play/pause/ended state change. -/
inductive PEvent where
  | timeUpdate (t : ℚ) (now : ℤ)
  | stateChange (isPlaying : Bool) (t : ℚ) (now : ℤ)
deriving DecidableEq, Repr

/-- Dispatch one player callback to its handler. -/
def stepEvent (s : PageState) : PEvent → PageState
  | .timeUpdate t now => handleTimeUpdate t now s
  | .stateChange p t now => handlePlayerStateChange p t now s

/-- Run a sequence of player callbacks. -/
def runEvents (s : PageState) (evs : List PEvent) : PageState :=
  evs.foldl stepEvent s

/-- The last periodically reported playback time of a callback sequence
(state changes do not count as reports), with a default for the case of
no report. -/
def lastReported (evs : List PEvent) (dflt : ℚ) : ℚ :=
  evs.foldl
    (fun acc e =>
      match e with
      | .timeUpdate t _ => t
      | .stateChange _ _ _ => acc)
    dflt

/-! ## Positions of the extractor regex, as predicates

These render, independently of the scanning function, what it means for an
alternative to match at position i of the subject: the text before i must
contain no line terminator (the greedy leading dot-star cannot cross one)
and an alternative must match at i. -/

/-- No line terminator among the first i characters. -/
def cleanTo (cs : List Char) (i : Nat) : Prop :=
  ∀ c ∈ cs.take i, isLineTerm c = false

/-- An alternative of length n matches at position i, and position i is
reachable by the leading dot-star. -/
def hitAt (cs : List Char) (i n : Nat) : Prop :=
  cleanTo cs i ∧ altAt (cs.drop i) = some n

instance (cs : List Char) (i : Nat) : Decidable (cleanTo cs i) := by
  unfold cleanTo; infer_instance

instance (cs : List Char) (i n : Nat) : Decidable (hitAt cs i n) := by
  unfold hitAt; infer_instance

instance (cs : List Char) (i : Nat) : Decidable (∃ n, hitAt cs i n) :=
  decidable_of_iff (cleanTo cs i ∧ (altAt (cs.drop i)).isSome)
    (by
      constructor
      · rintro ⟨hc, hs⟩
        obtain ⟨n, hn⟩ := Option.isSome_iff_exists.mp hs
        exact ⟨n, hc, hn⟩
      · rintro ⟨n, hc, hn⟩
        exact ⟨hc, by simp [hn]⟩)

/-! ## Lemmas about the extractor -/

theorem matchLit_mem {pat cs : List Char} (h : matchLit pat cs = true) :
    ∀ x ∈ pat, x ∈ cs := by
  induction pat generalizing cs with
  | nil => intro x hx; cases hx
  | cons p ps ih =>
    cases cs with
    | nil => simp [matchLit] at h
    | cons c cs' =>
      simp only [matchLit, Bool.and_eq_true, beq_iff_eq] at h
      obtain ⟨rfl, h2⟩ := h
      intro x hx
      rcases List.mem_cons.mp hx with rfl | hx'
      · exact List.mem_cons_self _ _
      · exact List.mem_cons_of_mem _ (ih h2 x hx')

theorem matchLit_head {p c : Char} {ps cs' : List Char}
    (h : matchLit (p :: ps) (c :: cs') = true) : p = c := by
  simp only [matchLit, Bool.and_eq_true, beq_iff_eq] at h
  exact h.1

theorem matchLit_append {pat cs : List Char} (h : matchLit pat cs = true) :
    cs = pat ++ cs.drop pat.length := by
  induction pat generalizing cs with
  | nil => simp
  | cons p ps ih =>
    cases cs with
    | nil => simp [matchLit] at h
    | cons c cs' =>
      simp only [matchLit, Bool.and_eq_true, beq_iff_eq] at h
      obtain ⟨rfl, h2⟩ := h
      simpa [List.length_cons] using ih h2

theorem uAlt_slash_mem {cs : List Char} (h : uAlt cs = true) : '/' ∈ cs := by
  cases cs with
  | nil => simp [uAlt] at h
  | cons a rest =>
    simp only [uAlt, Bool.and_eq_true, beq_iff_eq] at h
    obtain ⟨rfl, h2⟩ := h
    cases rest with
    | nil => simp [uAltB] at h2
    | cons b rest2 =>
      simp only [uAltB, Bool.and_eq_true, beq_iff_eq] at h2
      obtain ⟨rfl, _⟩ := h2
      exact List.mem_cons_of_mem _ (List.mem_cons_self _ _)

theorem uAlt_head {c : Char} {cs : List Char} (h : uAlt (c :: cs) = true) : c = 'u' := by
  simp only [uAlt, Bool.and_eq_true, beq_iff_eq] at h
  exact h.1

theorem altAt_nil : altAt [] = none := rfl

/-- On a list of identifier characters no alternative matches: every
alternative contains a slash, a question mark or an ampersand, none of
which is an identifier character. -/
theorem altAt_idChars {cs : List Char} (h : ∀ c ∈ cs, isIdChar c = true) :
    altAt cs = none := by
  have noSlash : '/' ∉ cs := fun hm => absurd (h '/' hm) (by decide)
  have noQ : '?' ∉ cs := fun hm => absurd (h '?' hm) (by decide)
  have noAmp : '&' ∉ cs := fun hm => absurd (h '&' hm) (by decide)
  have h1 : ¬ matchLit patYoutuBe cs = true := fun hm =>
    noSlash (matchLit_mem hm '/' (by decide))
  have h2 : ¬ matchLit patVSlash cs = true := fun hm =>
    noSlash (matchLit_mem hm '/' (by decide))
  have h3 : ¬ uAlt cs = true := fun hm => noSlash (uAlt_slash_mem hm)
  have h4 : ¬ matchLit patEmbed cs = true := fun hm =>
    noSlash (matchLit_mem hm '/' (by decide))
  have h5 : ¬ matchLit patWatchV cs = true := fun hm =>
    noQ (matchLit_mem hm '?' (by decide))
  have h6 : ¬ matchLit patAmpV cs = true := fun hm =>
    noAmp (matchLit_mem hm '&' (by decide))
  unfold altAt
  rw [if_neg h1, if_neg h2, if_neg h3, if_neg h4, if_neg h5, if_neg h6]

theorem not_lineTerm_of_idChar {c : Char} (h : isIdChar c = true) :
    isLineTerm c = false := by
  cases hb : isLineTerm c
  · rfl
  · have hc : c = '\n' ∨ c = '\r' ∨ c = Char.ofNat 8232 ∨ c = Char.ofNat 8233 := by
      simpa [isLineTerm, Bool.or_eq_true, beq_iff_eq, or_assoc] using hb
    rcases hc with rfl | rfl | rfl | rfl <;> exact absurd h (by decide)

/-- Scanning a list of identifier characters finds nothing new. -/
theorem scanLast_idChars {cs : List Char} (h : ∀ c ∈ cs, isIdChar c = true) :
    ∀ pos best, scanLast cs pos best = best := by
  induction cs with
  | nil => intro pos best; rfl
  | cons c rest ih =>
    intro pos best
    have hc := h c (List.mem_cons_self _ _)
    have hrest : ∀ x ∈ rest, isIdChar x = true := fun x hx => h x (List.mem_cons_of_mem _ hx)
    simp [scanLast, not_lineTerm_of_idChar hc, altAt_idChars h, ih hrest]

/-- Identifier characters contain no '#', '&' or '?', so group 2 keeps
them all. -/
theorem takeToken_idChars {cs : List Char} (h : ∀ c ∈ cs, isIdChar c = true) :
    takeToken cs = cs := by
  induction cs with
  | nil => rfl
  | cons c rest ih =>
    have hc := h c (List.mem_cons_self _ _)
    have h1 : (c == '#' || c == '&' || c == '?') = false := by
      cases hb : (c == '#' || c == '&' || c == '?')
      · rfl
      · have : c = '#' ∨ c = '&' ∨ c = '?' := by
          simpa [Bool.or_eq_true, beq_iff_eq, or_assoc] using hb
        rcases this with rfl | rfl | rfl <;> exact absurd hc (by decide)
    simp [takeToken, h1, ih (fun x hx => h x (List.mem_cons_of_mem _ hx))]

/-- Workhorse for the concrete URL shapes: when the scan over cs reduces
(definitionally, through the concrete prefix) to the scan over the
trailing identifier with the match already found, the extracted token is
exactly the identifier. -/
theorem extractId_of_scan (cs id : List Char) (k : Nat)
    (hid : ∀ c ∈ id, isIdChar c = true) (hlen : id.length = 11)
    (hscan : scanLast cs 0 none = scanLast id k (some k))
    (hdrop : cs.drop k = id) :
    extractId cs = id := by
  have hs : scanLast cs 0 none = some k := by
    rw [hscan, scanLast_idChars hid]
  have hstep : extractId cs
      = if (takeToken (cs.drop k)).length = 11 then takeToken (cs.drop k) else [] := by
    unfold extractId
    rw [hs]
  rw [hstep, hdrop, takeToken_idChars hid, if_pos hlen]

theorem hitAt_zero {cs : List Char} {n : Nat} : hitAt cs 0 n ↔ altAt cs = some n := by
  unfold hitAt cleanTo
  simp

theorem hitAt_cons_succ {c : Char} {cs : List Char} {i n : Nat} :
    hitAt (c :: cs) (i + 1) n ↔ isLineTerm c = false ∧ hitAt cs i n := by
  unfold hitAt cleanTo
  simp [List.take_succ_cons, List.drop_succ_cons, List.forall_mem_cons, and_assoc]

/-- An alternative never starts at a line terminator. -/
theorem altAt_cons_head {c : Char} {cs : List Char} {n : Nat}
    (h : altAt (c :: cs) = some n) :
    c = 'y' ∨ c = 'v' ∨ c = 'u' ∨ c = 'e' ∨ c = 'w' ∨ c = '&' := by
  unfold altAt at h
  split at h
  · next hm => exact Or.inl (matchLit_head hm).symm
  · split at h
    · next hm => exact Or.inr (Or.inl (matchLit_head hm).symm)
    · split at h
      · next hm => exact Or.inr (Or.inr (Or.inl (uAlt_head hm)))
      · split at h
        · next hm => exact Or.inr (Or.inr (Or.inr (Or.inl (matchLit_head hm).symm)))
        · split at h
          · next hm => exact Or.inr (Or.inr (Or.inr (Or.inr (Or.inl (matchLit_head hm).symm))))
          · split at h
            · next hm =>
              exact Or.inr (Or.inr (Or.inr (Or.inr (Or.inr (matchLit_head hm).symm))))
            · exact absurd h (by simp)

theorem altAt_cons_not_lineTerm {c : Char} {cs : List Char} {n : Nat}
    (h : altAt (c :: cs) = some n) : isLineTerm c = false := by
  rcases altAt_cons_head h with rfl | rfl | rfl | rfl | rfl | rfl <;> decide

/-- Completeness of the scan accumulator: with no matching position the
initial accumulator is returned. -/
theorem scanLast_eq_best {cs : List Char} (h : ∀ i n, ¬ hitAt cs i n) :
    ∀ pos best, scanLast cs pos best = best := by
  induction cs with
  | nil => intro pos best; rfl
  | cons c rest ih =>
    intro pos best
    by_cases hlt : isLineTerm c = true
    · simp [scanLast, hlt]
    · have hlt' : isLineTerm c = false := by simpa using hlt
      have halt : altAt (c :: rest) = none := by
        cases ha : altAt (c :: rest) with
        | none => rfl
        | some n => exact absurd (hitAt_zero.mpr ha) (h 0 n)
      have hrest : ∀ i n, ¬ hitAt rest i n := fun i n hin =>
        h (i + 1) n (hitAt_cons_succ.mpr ⟨hlt', hin⟩)
      simp [scanLast, hlt', halt, ih hrest]

/-- Soundness of the scan: it returns the end position of the rightmost
matching position. -/
theorem scanLast_eq_hit {cs : List Char} :
    ∀ i n, hitAt cs i n → (∀ i' n', hitAt cs i' n' → i' ≤ i) →
      ∀ pos best, scanLast cs pos best = some (pos + i + n) := by
  induction cs with
  | nil =>
    intro i n hin _ pos best
    have h2 := hin.2
    rw [List.drop_nil, altAt_nil] at h2
    exact absurd h2 (by simp)
  | cons c rest ih =>
    intro i n hin hmax pos best
    cases i with
    | zero =>
      have ha : altAt (c :: rest) = some n := hitAt_zero.mp hin
      have hlt : isLineTerm c = false := altAt_cons_not_lineTerm ha
      have hrest : ∀ i' n', ¬ hitAt rest i' n' := fun i' n' h' => by
        have := hmax (i' + 1) n' (hitAt_cons_succ.mpr ⟨hlt, h'⟩)
        omega
      simp [scanLast, hlt, ha, scanLast_eq_best hrest]
    | succ i' =>
      obtain ⟨hlt, hin'⟩ := hitAt_cons_succ.mp hin
      have hmax' : ∀ j m, hitAt rest j m → j ≤ i' := fun j m hj => by
        have := hmax (j + 1) m (hitAt_cons_succ.mpr ⟨hlt, hj⟩)
        omega
      simp only [scanLast, hlt, Bool.false_eq_true, if_false]
      rw [ih i' n hin' hmax' (pos + 1) _]
      exact congrArg some (by omega)

/-- Among the matching positions there is a rightmost one. -/
theorem exists_rightmost_hit {cs : List Char} (h : ∃ i n, hitAt cs i n) :
    ∃ i n, hitAt cs i n ∧ ∀ i' n', hitAt cs i' n' → i' ≤ i := by
  obtain ⟨i0, n0, h0⟩ := h
  have hbound : ∀ i n, hitAt cs i n → i ≤ cs.length := by
    intro i n hin
    by_contra hgt
    have hd : cs.drop i = [] := List.drop_eq_nil_of_le (by omega)
    have h2 := hin.2
    rw [hd, altAt_nil] at h2
    exact absurd h2 (by simp)
  obtain ⟨ns, hs⟩ :=
    Nat.findGreatest_spec (P := fun i => ∃ n, hitAt cs i n) (hbound i0 n0 h0) ⟨n0, h0⟩
  refine ⟨Nat.findGreatest (fun i => ∃ n, hitAt cs i n) cs.length, ns, hs, ?_⟩
  intro i' n' h'
  exact Nat.le_findGreatest (hbound i' n' h') ⟨n', h'⟩

/-! ## Lemmas about the storage model -/

theorem lookup_insert_self (k : String) (v : StoredValue) (l : List (String × StoredValue)) :
    lookupEntry k (insertEntry k v l) = some v := by
  induction l with
  | nil => simp [insertEntry, lookupEntry]
  | cons e rest ih =>
    obtain ⟨k', v'⟩ := e
    by_cases h : k' = k
    · simp [insertEntry, lookupEntry, h]
    · simp [insertEntry, lookupEntry, h, ih]

theorem lookup_insert_ne (k k0 : String) (v : StoredValue) (l : List (String × StoredValue))
    (h : k0 ≠ k) : lookupEntry k0 (insertEntry k v l) = lookupEntry k0 l := by
  have hkk0 : k ≠ k0 := Ne.symm h
  induction l with
  | nil => simp [insertEntry, lookupEntry, hkk0]
  | cons e rest ih =>
    obtain ⟨k', v'⟩ := e
    by_cases hk : k' = k
    · subst hk
      simp [insertEntry, lookupEntry, hkk0]
    · simp [insertEntry, lookupEntry, hk, ih]

theorem mem_insert_keys (x k : String) (v : StoredValue) (l : List (String × StoredValue)) :
    x ∈ (insertEntry k v l).map Prod.fst → x = k ∨ x ∈ l.map Prod.fst := by
  induction l with
  | nil => simp [insertEntry]
  | cons e rest ih =>
    obtain ⟨k', v'⟩ := e
    by_cases hk : k' = k
    · rw [show insertEntry k v ((k', v') :: rest) = (k, v) :: rest by simp [insertEntry, hk]]
      intro hx
      rw [List.map_cons, List.mem_cons] at hx
      rcases hx with rfl | hx'
      · exact Or.inl rfl
      · exact Or.inr (by simp [hx'])
    · rw [show insertEntry k v ((k', v') :: rest) = (k', v') :: insertEntry k v rest by
        simp [insertEntry, hk]]
      intro hx
      rw [List.map_cons, List.mem_cons] at hx
      rcases hx with rfl | hx'
      · exact Or.inr (by simp)
      · rcases ih hx' with h1 | h2
        · exact Or.inl h1
        · exact Or.inr (by simp [h2])

theorem insert_keys_nodup (k : String) (v : StoredValue) (l : List (String × StoredValue))
    (h : (l.map Prod.fst).Nodup) : ((insertEntry k v l).map Prod.fst).Nodup := by
  induction l with
  | nil => simp [insertEntry]
  | cons e rest ih =>
    obtain ⟨k', v'⟩ := e
    rw [List.map_cons, List.nodup_cons] at h
    by_cases hk : k' = k
    · subst hk
      simpa [insertEntry] using h
    · rw [show insertEntry k v ((k', v') :: rest) = (k', v') :: insertEntry k v rest by
        simp [insertEntry, hk]]
      rw [List.map_cons, List.nodup_cons]
      refine ⟨fun hm => ?_, ih h.2⟩
      rcases mem_insert_keys k' k v rest hm with h1 | h2
      · exact hk h1
      · exact h.1 h2

/-- Saving then loading the same non-empty id on available storage
returns exactly the saved value. -/
theorem getVideoData_save_self (id : String) (v : JSVal) (st : Storage)
    (hid : id ≠ "") (hav : st.avail = true) :
    getVideoData id (saveVideoData id v st) = some v := by
  unfold saveVideoData getVideoData
  simp [hid, hav, lookup_insert_self, jsonStringify, jsonParse]

/-- Saving one id does not affect what any other id loads to. -/
theorem getVideoData_save_other (id k : String) (v : JSVal) (st : Storage)
    (h : k ≠ id) : getVideoData k (saveVideoData id v st) = getVideoData k st := by
  unfold saveVideoData getVideoData
  by_cases hid : id = ""
  · simp [hid]
  · by_cases hav : st.avail
    · simp [hid, hav, lookup_insert_ne id k _ _ h]
    · simp [hid, hav]

theorem saveVideoData_avail (id : String) (v : JSVal) (st : Storage) :
    (saveVideoData id v st).avail = st.avail := by
  unfold saveVideoData
  by_cases hid : id = "" <;> by_cases hav : st.avail <;> simp [hid, hav]

/-! ## Lemmas about the video page event traces -/

theorem runEvents_cons (s : PageState) (e : PEvent) (evs : List PEvent) :
    runEvents s (e :: evs) = runEvents (stepEvent s e) evs := rfl

theorem lastReported_cons (e : PEvent) (evs : List PEvent) (d : ℚ) :
    lastReported (e :: evs) d
      = lastReported evs (match e with | .timeUpdate t _ => t | .stateChange _ _ _ => d) := rfl

theorem runEvents_currentTime (evs : List PEvent) :
    ∀ s : PageState, (runEvents s evs).currentTime = lastReported evs s.currentTime := by
  induction evs with
  | nil => intro s; rfl
  | cons e rest ih =>
    intro s
    rw [runEvents_cons, lastReported_cons, ih]
    cases e with
    | timeUpdate t n => rfl
    | stateChange p t n => rfl

theorem runEvents_videoId (evs : List PEvent) :
    ∀ s : PageState, (runEvents s evs).videoId = s.videoId := by
  induction evs with
  | nil => intro s; rfl
  | cons e rest ih =>
    intro s
    rw [runEvents_cons, ih]
    cases e with
    | timeUpdate t n => rfl
    | stateChange p t n => rfl

theorem runEvents_originalUrl (evs : List PEvent) :
    ∀ s : PageState, (runEvents s evs).playerData.originalUrl = s.playerData.originalUrl := by
  induction evs with
  | nil => intro s; rfl
  | cons e rest ih =>
    intro s
    rw [runEvents_cons, ih]
    cases e with
    | timeUpdate t n => rfl
    | stateChange p t n => rfl

theorem runEvents_avail (evs : List PEvent) :
    ∀ s : PageState, (runEvents s evs).store.avail = s.store.avail := by
  induction evs with
  | nil => intro s; rfl
  | cons e rest ih =>
    intro s
    rw [runEvents_cons, ih]
    cases e with
    | timeUpdate t n =>
      simp [stepEvent, handleTimeUpdate, saveVideoData_avail]
    | stateChange p t n =>
      simp [stepEvent, handlePlayerStateChange, saveVideoData_avail]

theorem lastReported_nonpos (evs : List PEvent) :
    ∀ d : ℚ, d ≤ 0 → (∀ t m, PEvent.timeUpdate t m ∈ evs → t ≤ 0) →
      lastReported evs d ≤ 0 := by
  induction evs with
  | nil => intro d hd _; exact hd
  | cons e rest ih =>
    intro d hd hall
    rw [lastReported_cons]
    cases e with
    | timeUpdate t n =>
      exact ih t (hall t n (by simp)) (fun t' m' hm => hall t' m' (by simp [hm]))
    | stateChange p t n =>
      exact ih d hd (fun t' m' hm => hall t' m' (by simp [hm]))

/-! ## Inversion of the form regex parse -/

theorem stripLit_inv {pat cs r : List Char} (h : stripLit pat cs = some r) :
    cs = pat ++ r := by
  unfold stripLit at h
  split at h
  · next hm =>
    injection h with h'
    rw [← h']
    exact matchLit_append hm
  · exact absurd h (by simp)

theorem stripOpt_cases (pat cs : List Char) :
    cs = pat ++ stripOpt pat cs ∨ stripOpt pat cs = cs := by
  unfold stripOpt
  cases hs : stripLit pat cs with
  | none => exact Or.inr rfl
  | some r => exact Or.inl (stripLit_inv hs)

theorem stripScheme_cases (cs : List Char) :
    cs = patHttp ++ stripScheme cs ∨ cs = patHttps ++ stripScheme cs ∨ stripScheme cs = cs := by
  unfold stripScheme
  cases h1 : stripLit patHttp cs with
  | some r => exact Or.inl (stripLit_inv h1)
  | none =>
    cases h2 : stripLit patHttps cs with
    | some r => exact Or.inr (Or.inl (stripLit_inv h2))
    | none => exact Or.inr (Or.inr rfl)

/-- A string accepted by the form regex decomposes as an optional scheme,
an optional www. part, one of the two host literals, and the remainder
returned by formParse. -/
theorem formParse_inv {cs r : List Char} (h : formParse cs = some r) :
    ∃ s, (s = ([] : List Char) ∨ s = patHttp ∨ s = patHttps) ∧
    ∃ w, (w = ([] : List Char) ∨ w = patWww) ∧
    ∃ hp, (hp = patWatchHost ∨ hp = patBeHost) ∧
    cs = s ++ (w ++ (hp ++ r)) := by
  have hs := stripScheme_cases cs
  have hw := stripOpt_cases patWww (stripScheme cs)
  have hhost : stripOpt patWww (stripScheme cs) = patWatchHost ++ r ∨
      stripOpt patWww (stripScheme cs) = patBeHost ++ r := by
    simp only [formParse] at h
    cases hwatch : stripLit patWatchHost (stripOpt patWww (stripScheme cs)) with
    | some r2 =>
      rw [hwatch] at h
      injection h with h'
      subst h'
      exact Or.inl (stripLit_inv hwatch)
    | none =>
      rw [hwatch] at h
      exact Or.inr (stripLit_inv h)
  have asm : ∀ s0 w0 hp0 : List Char,
      cs = s0 ++ stripScheme cs →
      stripScheme cs = w0 ++ stripOpt patWww (stripScheme cs) →
      stripOpt patWww (stripScheme cs) = hp0 ++ r →
      cs = s0 ++ (w0 ++ (hp0 ++ r)) := by
    intro s0 w0 hp0 h1 h2 h3
    rw [h1, h2, h3]
  rcases hhost with hhost | hhost
  all_goals rcases hw with hw | hw
  all_goals rcases hs with hs | hs | hs
  · exact ⟨patHttp, Or.inr (Or.inl rfl), patWww, Or.inr rfl, patWatchHost, Or.inl rfl,
      asm _ _ _ hs hw hhost⟩
  · exact ⟨patHttps, Or.inr (Or.inr rfl), patWww, Or.inr rfl, patWatchHost, Or.inl rfl,
      asm _ _ _ hs hw hhost⟩
  · exact ⟨[], Or.inl rfl, patWww, Or.inr rfl, patWatchHost, Or.inl rfl,
      asm _ _ _ (by simpa using hs.symm) hw hhost⟩
  · exact ⟨patHttp, Or.inr (Or.inl rfl), [], Or.inl rfl, patWatchHost, Or.inl rfl,
      asm _ _ _ hs (by simpa using hw.symm) hhost⟩
  · exact ⟨patHttps, Or.inr (Or.inr rfl), [], Or.inl rfl, patWatchHost, Or.inl rfl,
      asm _ _ _ hs (by simpa using hw.symm) hhost⟩
  · exact ⟨[], Or.inl rfl, [], Or.inl rfl, patWatchHost, Or.inl rfl,
      asm _ _ _ (by simpa using hs.symm) (by simpa using hw.symm) hhost⟩
  · exact ⟨patHttp, Or.inr (Or.inl rfl), patWww, Or.inr rfl, patBeHost, Or.inr rfl,
      asm _ _ _ hs hw hhost⟩
  · exact ⟨patHttps, Or.inr (Or.inr rfl), patWww, Or.inr rfl, patBeHost, Or.inr rfl,
      asm _ _ _ hs hw hhost⟩
  · exact ⟨[], Or.inl rfl, patWww, Or.inr rfl, patBeHost, Or.inr rfl,
      asm _ _ _ (by simpa using hs.symm) hw hhost⟩
  · exact ⟨patHttp, Or.inr (Or.inl rfl), [], Or.inl rfl, patBeHost, Or.inr rfl,
      asm _ _ _ hs (by simpa using hw.symm) hhost⟩
  · exact ⟨patHttps, Or.inr (Or.inr rfl), [], Or.inl rfl, patBeHost, Or.inr rfl,
      asm _ _ _ hs (by simpa using hw.symm) hhost⟩
  · exact ⟨[], Or.inl rfl, [], Or.inl rfl, patBeHost, Or.inr rfl,
      asm _ _ _ (by simpa using hs.symm) (by simpa using hw.symm) hhost⟩

/-! ## Claim C1 -/

/-- C1: for every stored pair of lastKnownVideoTime T and
lastKnownSystemTime S and every current wall-clock time N, the computed
resume start time equals max 0 (T + (N - S) / 1000); and when N < S the
result can be strictly below T — the floor is only at zero, never at T. -/
theorem calculatedStartTime_eq_max :
    (∀ (t : ℚ) (s n : ℤ),
        calculatedStartTime t s n = max 0 (t + ((n : ℚ) - (s : ℚ)) / 1000)) ∧
    (∃ (t : ℚ) (s n : ℤ), n < s ∧ calculatedStartTime t s n < t) := by
  constructor
  · intro t s n
    show (if t + ((n : ℚ) - (s : ℚ)) / 1000 < 0 then 0
          else t + ((n : ℚ) - (s : ℚ)) / 1000) = _
    by_cases h : t + ((n : ℚ) - (s : ℚ)) / 1000 < 0
    · rw [if_pos h, max_eq_left h.le]
    · rw [if_neg h, max_eq_right (not_lt.mp h)]
  · refine ⟨10, 2000, 0, by norm_num, ?_⟩
    norm_num [calculatedStartTime]

/-! ## Claim C2 -/

/-- C2: for every non-empty identifier and every record, loading
immediately after saving (storage available, no intervening writes)
returns a record equal to the saved one. -/
theorem getVideoData_after_save_roundtrip (id : String) (r : VideoData) (st : Storage)
    (hid : id ≠ "") (hav : st.avail = true) :
    getVideoData id (saveVideoData id (JSVal.record r) st) = some (JSVal.record r) :=
  getVideoData_save_self id (JSVal.record r) st hid hav

/-- Witness for C2 at a concrete identifier, record and store. -/
theorem getVideoData_after_save_roundtrip_witness :
    getVideoData "dQw4w9WgXcQ"
        (saveVideoData "dQw4w9WgXcQ"
          (JSVal.record ⟨"https://youtu.be/dQw4w9WgXcQ", 45, 1700000000000⟩)
          ⟨true, []⟩)
      = some (JSVal.record ⟨"https://youtu.be/dQw4w9WgXcQ", 45, 1700000000000⟩) :=
  getVideoData_after_save_roundtrip "dQw4w9WgXcQ"
    ⟨"https://youtu.be/dQw4w9WgXcQ", 45, 1700000000000⟩ ⟨true, []⟩ (by decide) rfl

/-! ## Claim C4 -/

/-- C4: for every 11-character video identifier (a string over the
identifier alphabet a-z A-Z 0-9 underscore hyphen), the short-link,
long and embed URL forms all extract that same identifier. -/
theorem extractor_same_id_all_forms (id : String)
    (hlen : id.length = 11) (hid : ∀ c ∈ id.data, isIdChar c = true) :
    getYouTubeIdFromUrl ("https://youtu.be/" ++ id) = id ∧
    getYouTubeIdFromUrl ("https://www.youtube.com/watch?v=" ++ id) = id ∧
    getYouTubeIdFromUrl ("https://www.youtube.com/embed/" ++ id) = id := by
  have hlen' : id.data.length = 11 := hlen
  refine ⟨?_, ?_, ?_⟩
  · show String.mk (extractId ("https://youtu.be/" ++ id).data) = id
    rw [show ("https://youtu.be/" ++ id).data = "https://youtu.be/".data ++ id.data from rfl]
    rw [extractId_of_scan ("https://youtu.be/".data ++ id.data) id.data 17 hid hlen' rfl rfl]
  · show String.mk (extractId ("https://www.youtube.com/watch?v=" ++ id).data) = id
    rw [show ("https://www.youtube.com/watch?v=" ++ id).data
        = "https://www.youtube.com/watch?v=".data ++ id.data from rfl]
    rw [extractId_of_scan ("https://www.youtube.com/watch?v=".data ++ id.data) id.data 32 hid hlen' rfl rfl]
  · show String.mk (extractId ("https://www.youtube.com/embed/" ++ id).data) = id
    rw [show ("https://www.youtube.com/embed/" ++ id).data
        = "https://www.youtube.com/embed/".data ++ id.data from rfl]
    rw [extractId_of_scan ("https://www.youtube.com/embed/".data ++ id.data) id.data 30 hid hlen' rfl rfl]

/-- Witness for C4 at a concrete identifier. -/
theorem extractor_same_id_all_forms_witness :
    getYouTubeIdFromUrl ("https://youtu.be/" ++ "dQw4w9WgXcQ") = "dQw4w9WgXcQ" ∧
    getYouTubeIdFromUrl ("https://www.youtube.com/watch?v=" ++ "dQw4w9WgXcQ") = "dQw4w9WgXcQ" ∧
    getYouTubeIdFromUrl ("https://www.youtube.com/embed/" ++ "dQw4w9WgXcQ") = "dQw4w9WgXcQ" :=
  extractor_same_id_all_forms "dQw4w9WgXcQ" rfl (by decide)

/-! ## Claim C3 -/

/-- C3 counterexample: the claimed iff (non-empty result exactly when an
11-character token occurs at SOME recognised position, with the u-form
read as u/letter/) fails in both directions.  In
embed/abcdefghijk&v=zz an 11-character token does follow the recognised
embed/ position, yet the extractor returns the empty string, because the
regex takes the rightmost position &v= whose token zz is too short.  In
u/0/abcdefghijk no claimed position occurs (0 is not a letter), yet the
extractor returns abcdefghijk, because the regex class is any word
character. -/
theorem extractor_iff_claim_positions_cex :
    ¬ (getYouTubeIdFromUrl "embed/abcdefghijk&v=zz" ≠ "" ↔
        claimTokenOccurs "embed/abcdefghijk&v=zz".data = true) ∧
    ¬ (getYouTubeIdFromUrl "u/0/abcdefghijk" ≠ "" ↔
        claimTokenOccurs "u/0/abcdefghijk".data = true) := by
  constructor <;> decide

/-- C3 amended: the result is non-empty exactly when some alternative
matches before the first line terminator and the token after the
RIGHTMOST such match position, up to the first '#', '&' or '?', has
length exactly 11 — the u-form covering any word character.  The
function itself is total, so it never throws. -/
theorem extractor_nonempty_iff_rightmost_token (url : String) :
    getYouTubeIdFromUrl url ≠ "" ↔
      ∃ i n, hitAt url.data i n ∧ (∀ j m, hitAt url.data j m → j ≤ i) ∧
        (takeToken (url.data.drop (i + n))).length = 11 := by
  have hmk : ∀ l : List Char, (String.mk l = "") ↔ l = [] := fun l =>
    ⟨fun h => show l = [] from congrArg String.data h, fun h => by rw [h]⟩
  show String.mk (extractId url.data) ≠ "" ↔ _
  rw [ne_eq, hmk]
  cases hs : scanLast url.data 0 none with
  | none =>
    have hext : extractId url.data = [] := by
      unfold extractId
      rw [hs]
    rw [hext]
    constructor
    · intro hne
      exact absurd rfl hne
    · rintro ⟨i, n, hit, hmax, _⟩
      have hv := scanLast_eq_hit i n hit hmax 0 none
      rw [hs] at hv
      exact absurd hv (by simp)
  | some j =>
    have hext : extractId url.data
        = if (takeToken (url.data.drop j)).length = 11
          then takeToken (url.data.drop j) else [] := by
      unfold extractId
      rw [hs]
    have hex : ∃ i n, hitAt url.data i n := by
      by_contra hno
      push_neg at hno
      have hv := scanLast_eq_best (fun i n => hno i n) 0 (none : Option Nat)
      rw [hs] at hv
      exact absurd hv (by simp)
    obtain ⟨i, n, hit, hmax⟩ := exists_rightmost_hit hex
    have hj : j = i + n := by
      have hv := scanLast_eq_hit i n hit hmax 0 none
      rw [hs] at hv
      injection hv with h'
      omega
    subst hj
    rw [hext]
    by_cases hlen : (takeToken (url.data.drop (i + n))).length = 11
    · rw [if_pos hlen]
      constructor
      · intro _
        exact ⟨i, n, hit, hmax, hlen⟩
      · intro _ hempty
        rw [hempty] at hlen
        exact absurd hlen (by decide)
    · rw [if_neg hlen]
      constructor
      · intro hne
        exact absurd rfl hne
      · rintro ⟨i', n', hit', hmax', hlen'⟩
        have hii : i' = i := le_antisymm (hmax i' n' hit') (hmax' i n hit)
        subst hii
        have e1 := hit.2
        have e2 := hit'.2
        rw [e1] at e2
        injection e2 with h'
        subst h'
        exact (hlen hlen').elim

/-! ## Claim C5 -/

/-- C5 counterexample: the gif page's back-to-video handler updates
lastKnownSystemTime while leaving the previously stored
lastKnownVideoTime in place.  Starting from a stored record
(u, 45, 1000), pressing the button at wall-clock 3000 stores
(u, 45, 3000): the system time was rewritten to now although the video
time 45 is the old stored observation, so the pair was not written from
one observation — refuting the claim that no operation does this. -/
theorem backToVideo_keeps_videoTime_cex :
    getVideoData "dQw4w9WgXcQ"
        ⟨true, [("dQw4w9WgXcQ", StoredValue.ser (JSVal.record ⟨"u", 45, 1000⟩))]⟩
      = some (JSVal.record ⟨"u", 45, 1000⟩) ∧
    getVideoData "dQw4w9WgXcQ"
        (handleBackToVideo "dQw4w9WgXcQ" 3000
          ⟨true, [("dQw4w9WgXcQ", StoredValue.ser (JSVal.record ⟨"u", 45, 1000⟩))]⟩)
      = some (JSVal.record ⟨"u", 45, 3000⟩) ∧
    (1000 : ℤ) ≠ 3000 := by
  refine ⟨?_, ?_, ?_⟩ <;> decide

/-- C5 amended: the periodic time report, the play/pause state change and
the teardown save write lastKnownVideoTime and lastKnownSystemTime
together from one observation, and first submission of a URL whose
identifier has no stored record creates the pair (0, now); but three
operations stamp lastKnownSystemTime := now while carrying over the
previously stored lastKnownVideoTime: resubmitting a URL whose
identifier already has a record, the gif page's back-to-video handler,
and the edit handler. -/
theorem write_pairing_characterization :
    (∀ (t : ℚ) (now : ℤ) (s : PageState), s.videoId ≠ "" → s.store.avail = true →
        getVideoData s.videoId (handleTimeUpdate t now s).store
          = some (JSVal.record ⟨s.playerData.originalUrl, t, now⟩)) ∧
    (∀ (b : Bool) (t : ℚ) (now : ℤ) (s : PageState), s.videoId ≠ "" → s.store.avail = true →
        getVideoData s.videoId (handlePlayerStateChange b t now s).store
          = some (JSVal.record ⟨s.playerData.originalUrl, t, now⟩)) ∧
    (∀ (now : ℤ) (s : PageState), s.videoId ≠ "" → s.store.avail = true →
        0 < s.currentTime →
        getVideoData s.videoId (handleBeforeUnload now s).store
          = some (JSVal.record ⟨s.playerData.originalUrl, s.currentTime, now⟩)) ∧
    (∀ (url : String) (now : ℤ) (st : Storage),
        getYouTubeIdFromUrl url ≠ "" → st.avail = true →
        getVideoData (getYouTubeIdFromUrl url) st = none →
        getVideoData (getYouTubeIdFromUrl url) (handleSaveUrl url now st)
          = some (JSVal.record ⟨url, 0, now⟩)) ∧
    (∀ (url : String) (now : ℤ) (st : Storage) (r : VideoData),
        getYouTubeIdFromUrl url ≠ "" → st.avail = true →
        getVideoData (getYouTubeIdFromUrl url) st = some (JSVal.record r) →
        getVideoData (getYouTubeIdFromUrl url) (handleSaveUrl url now st)
          = some (JSVal.record ⟨url, r.lastKnownVideoTime, now⟩)) ∧
    (∀ (vid : String) (now : ℤ) (st : Storage) (r : VideoData),
        vid ≠ "" → st.avail = true →
        getVideoData vid st = some (JSVal.record r) →
        getVideoData vid (handleBackToVideo vid now st)
          = some (JSVal.record { r with lastKnownSystemTime := now })) ∧
    (∀ (vid : String) (pd : VideoData) (now : ℤ) (st : Storage),
        vid ≠ "" → pd.originalUrl ≠ "" → st.avail = true →
        getVideoData vid (refinedHandleEdit vid pd now st)
          = some (JSVal.record { pd with lastKnownSystemTime := now })) := by
  refine ⟨?_, ?_, ?_, ?_, ?_, ?_, ?_⟩
  · intro t now s hvid hav
    exact getVideoData_save_self _ _ _ hvid hav
  · intro b t now s hvid hav
    exact getVideoData_save_self _ _ _ hvid hav
  · intro now s hvid hav hpos
    have hstep : (handleBeforeUnload now s).store
        = saveVideoData s.videoId
            (JSVal.record ⟨s.playerData.originalUrl, s.currentTime, now⟩) s.store := by
      unfold handleBeforeUnload
      rw [if_pos hpos]
    rw [hstep]
    exact getVideoData_save_self _ _ _ hvid hav
  · intro url now st hvid hav hnone
    have hcond : ¬ ((getYouTubeIdFromUrl url == "") = true) := fun hc =>
      hvid (by simpa using hc)
    simp only [handleSaveUrl]
    rw [if_neg hcond, hnone]
    exact getVideoData_save_self _ _ _ hvid hav
  · intro url now st r hvid hav hr
    have hcond : ¬ ((getYouTubeIdFromUrl url == "") = true) := fun hc =>
      hvid (by simpa using hc)
    simp only [handleSaveUrl]
    rw [if_neg hcond, hr]
    exact getVideoData_save_self _ _ _ hvid hav
  · intro vid now st r hvid hav hr
    have hcond : ¬ ((vid == "") = true) := fun hc => hvid (by simpa using hc)
    simp only [handleBackToVideo]
    rw [if_neg hcond, hr]
    exact getVideoData_save_self _ _ _ hvid hav
  · intro vid pd now st hvid hurl hav
    have hcond : ¬ ((pd.originalUrl == "" || vid == "") = true) := by
      simp [hvid, hurl]
    simp only [refinedHandleEdit]
    rw [if_neg hcond]
    exact getVideoData_save_self _ _ _ hvid hav

/-- Witness for the amended C5, instantiating every conjunct. -/
theorem write_pairing_characterization_witness :
    getVideoData "a" (handleTimeUpdate 45 2000 ⟨"a", ⟨"u", 1, 5⟩, 0, ⟨true, []⟩⟩).store
      = some (JSVal.record ⟨"u", 45, 2000⟩) ∧
    getVideoData "a"
        (handlePlayerStateChange false 7 2500 ⟨"a", ⟨"u", 1, 5⟩, 0, ⟨true, []⟩⟩).store
      = some (JSVal.record ⟨"u", 7, 2500⟩) ∧
    getVideoData "a" (handleBeforeUnload 3000 ⟨"a", ⟨"u", 1, 5⟩, 9, ⟨true, []⟩⟩).store
      = some (JSVal.record ⟨"u", 9, 3000⟩) ∧
    getVideoData "dQw4w9WgXcQ"
        (handleSaveUrl "https://youtu.be/dQw4w9WgXcQ" 7000 ⟨true, []⟩)
      = some (JSVal.record ⟨"https://youtu.be/dQw4w9WgXcQ", 0, 7000⟩) ∧
    getVideoData "dQw4w9WgXcQ"
        (handleSaveUrl "https://youtu.be/dQw4w9WgXcQ" 4000
          ⟨true, [("dQw4w9WgXcQ", StoredValue.ser (JSVal.record ⟨"old", 45, 1000⟩))]⟩)
      = some (JSVal.record ⟨"https://youtu.be/dQw4w9WgXcQ", 45, 4000⟩) ∧
    getVideoData "a"
        (handleBackToVideo "a" 5000
          ⟨true, [("a", StoredValue.ser (JSVal.record ⟨"u", 45, 1000⟩))]⟩)
      = some (JSVal.record ⟨"u", 45, 5000⟩) ∧
    getVideoData "a" (refinedHandleEdit "a" ⟨"u", 45, 1000⟩ 6000 ⟨true, []⟩)
      = some (JSVal.record ⟨"u", 45, 6000⟩) := by
  refine ⟨?_, ?_, ?_, ?_, ?_, ?_, ?_⟩
  · exact write_pairing_characterization.1 45 2000 ⟨"a", ⟨"u", 1, 5⟩, 0, ⟨true, []⟩⟩
      (by decide) rfl
  · exact write_pairing_characterization.2.1 false 7 2500 ⟨"a", ⟨"u", 1, 5⟩, 0, ⟨true, []⟩⟩
      (by decide) rfl
  · exact write_pairing_characterization.2.2.1 3000 ⟨"a", ⟨"u", 1, 5⟩, 9, ⟨true, []⟩⟩
      (by decide) rfl (by norm_num)
  · exact write_pairing_characterization.2.2.2.1 "https://youtu.be/dQw4w9WgXcQ" 7000
      ⟨true, []⟩ (by decide) rfl (by decide)
  · exact write_pairing_characterization.2.2.2.2.1 "https://youtu.be/dQw4w9WgXcQ" 4000
      ⟨true, [("dQw4w9WgXcQ", StoredValue.ser (JSVal.record ⟨"old", 45, 1000⟩))]⟩
      ⟨"old", 45, 1000⟩ (by decide) rfl (by decide)
  · exact write_pairing_characterization.2.2.2.2.2.1 "a" 5000
      ⟨true, [("a", StoredValue.ser (JSVal.record ⟨"u", 45, 1000⟩))]⟩
      ⟨"u", 45, 1000⟩ (by decide) rfl (by decide)
  · exact write_pairing_characterization.2.2.2.2.2.2 "a" ⟨"u", 45, 1000⟩ 6000 ⟨true, []⟩
      (by decide) (by decide) rfl

/-! ## Claim C6 -/

/-- C6 counterexample: a corrupt stored value that is syntactically valid
JSON but not a record — here the text 42 — is not treated as absent:
getVideoData returns it (cast, unvalidated) instead of null. -/
theorem getVideoData_wellformed_corrupt_cex :
    getVideoData "dQw4w9WgXcQ"
        ⟨true, [("dQw4w9WgXcQ", StoredValue.ser (JSVal.other true "42"))]⟩
      = some (JSVal.other true "42") ∧
    getVideoData "dQw4w9WgXcQ"
        ⟨true, [("dQw4w9WgXcQ", StoredValue.ser (JSVal.other true "42"))]⟩
      ≠ none := by
  constructor <;> decide

/-- C6 amended: for a non-empty identifier getVideoData returns null when
nothing is stored under it, when the stored text is malformed JSON (the
parse exception is caught), or when storage access fails — and, being a
total function, it never throws.  A corrupt value that parses as JSON is
instead returned as-is. -/
theorem getVideoData_absent_cases (id : String) (st : Storage) (hid : id ≠ "") :
    (lookupEntry id st.entries = none → getVideoData id st = none) ∧
    (∀ text, lookupEntry id st.entries = some (StoredValue.malformed text) →
      getVideoData id st = none) ∧
    (st.avail = false → getVideoData id st = none) := by
  have hcond : ((id == "") : Bool) = false := by
    simpa using hid
  refine ⟨?_, ?_, ?_⟩
  · intro hnone
    unfold getVideoData
    cases hav : st.avail <;> simp [hcond, hav, hnone]
  · intro text hmal
    unfold getVideoData
    cases hav : st.avail <;> simp [hcond, hav, hmal, jsonParse]
  · intro hav
    unfold getVideoData
    simp [hcond, hav]

/-- Witness for the amended C6: a malformed stored text loads as null. -/
theorem getVideoData_absent_cases_witness :
    getVideoData "dQw4w9WgXcQ"
        ⟨true, [("dQw4w9WgXcQ", StoredValue.malformed "not json")]⟩ = none :=
  (getVideoData_absent_cases "dQw4w9WgXcQ"
    ⟨true, [("dQw4w9WgXcQ", StoredValue.malformed "not json")]⟩
    (by decide)).2.1 "not json" (by decide)

/-! ## Claim C7 -/

/-- C7: on a successful URL submission with working storage, when no value
is stored for the extracted identifier a fresh record (url, 0, now) is
created; when a record exists it is updated in place — new originalUrl
and lastKnownSystemTime, lastKnownVideoTime untouched; every other key
is unaffected, and key uniqueness (no duplicate entry) is preserved. -/
theorem handleSaveUrl_create_or_update (url : String) (now : ℤ) (st : Storage)
    (hvid : getYouTubeIdFromUrl url ≠ "") (hav : st.avail = true) :
    (getVideoData (getYouTubeIdFromUrl url) st = none →
      getVideoData (getYouTubeIdFromUrl url) (handleSaveUrl url now st)
        = some (JSVal.record ⟨url, 0, now⟩)) ∧
    (∀ r, getVideoData (getYouTubeIdFromUrl url) st = some (JSVal.record r) →
      getVideoData (getYouTubeIdFromUrl url) (handleSaveUrl url now st)
        = some (JSVal.record ⟨url, r.lastKnownVideoTime, now⟩)) ∧
    (∀ k, k ≠ getYouTubeIdFromUrl url →
      getVideoData k (handleSaveUrl url now st) = getVideoData k st) ∧
    ((st.entries.map Prod.fst).Nodup →
      ((handleSaveUrl url now st).entries.map Prod.fst).Nodup) := by
  have hcond : ¬ ((getYouTubeIdFromUrl url == "") = true) := fun hc => hvid (by simpa using hc)
  refine ⟨?_, ?_, ?_, ?_⟩
  · intro hnone
    simp only [handleSaveUrl]
    rw [if_neg hcond, hnone]
    exact getVideoData_save_self _ _ _ hvid hav
  · intro r hr
    simp only [handleSaveUrl]
    rw [if_neg hcond, hr]
    exact getVideoData_save_self _ _ _ hvid hav
  · intro k hk
    simp only [handleSaveUrl]
    rw [if_neg hcond]
    cases hget : getVideoData (getYouTubeIdFromUrl url) st with
    | none => exact getVideoData_save_other _ _ _ _ hk
    | some v =>
      cases v with
      | record r => exact getVideoData_save_other _ _ _ _ hk
      | other b tag =>
        cases b
        · exact getVideoData_save_other _ _ _ _ hk
        · exact getVideoData_save_other _ _ _ _ hk
  · intro hnodup
    have hsave : ∀ v : JSVal,
        (((saveVideoData (getYouTubeIdFromUrl url) v st).entries).map Prod.fst).Nodup := by
      intro v
      unfold saveVideoData
      rw [if_neg hcond, if_pos hav]
      exact insert_keys_nodup _ _ _ hnodup
    simp only [handleSaveUrl]
    rw [if_neg hcond]
    cases hget : getVideoData (getYouTubeIdFromUrl url) st with
    | none => exact hsave _
    | some v =>
      cases v with
      | record r => exact hsave _
      | other b tag =>
        cases b
        · exact hsave _
        · exact hsave _

/-- Witness for C7: first submission creates the record (url, 0, now). -/
theorem handleSaveUrl_create_or_update_witness :
    getVideoData "dQw4w9WgXcQ"
        (handleSaveUrl "https://youtu.be/dQw4w9WgXcQ" 1234 ⟨true, []⟩)
      = some (JSVal.record ⟨"https://youtu.be/dQw4w9WgXcQ", 0, 1234⟩) :=
  (handleSaveUrl_create_or_update "https://youtu.be/dQw4w9WgXcQ" 1234 ⟨true, []⟩
    (by decide) rfl).1 (by decide)

/-! ## Claim C8 -/

/-- C8: after any sequence of player callbacks, the teardown save writes
lastKnownVideoTime equal to exactly the last periodically reported
playback time — not extrapolated by the wall clock — and
lastKnownSystemTime equal to the wall-clock time of the save itself. -/
theorem unload_saves_last_reported_time (s : PageState) (evs : List PEvent) (now : ℤ)
    (hvid : s.videoId ≠ "") (hav : s.store.avail = true)
    (hpos : 0 < lastReported evs s.currentTime) :
    getVideoData s.videoId (handleBeforeUnload now (runEvents s evs)).store
      = some (JSVal.record
          ⟨s.playerData.originalUrl, lastReported evs s.currentTime, now⟩) := by
  have hct := runEvents_currentTime evs s
  have hvid' := runEvents_videoId evs s
  have hav' := runEvents_avail evs s
  have hurl := runEvents_originalUrl evs s
  have hstep : (handleBeforeUnload now (runEvents s evs)).store
      = saveVideoData s.videoId
          (JSVal.record
            ⟨s.playerData.originalUrl, lastReported evs s.currentTime, now⟩)
          (runEvents s evs).store := by
    unfold handleBeforeUnload
    rw [if_pos (show 0 < (runEvents s evs).currentTime by rw [hct]; exact hpos)]
    rw [hvid', hct]
    simp [hurl]
  rw [hstep]
  exact getVideoData_save_self _ _ _ hvid (by rw [hav']; exact hav)

/-- Witness for C8: report 45 at time 1000, unload at 3000 saves
exactly (45, 3000). -/
theorem unload_saves_last_reported_time_witness :
    getVideoData "dQw4w9WgXcQ"
        (handleBeforeUnload 3000
          (runEvents ⟨"dQw4w9WgXcQ", ⟨"u", 0, 0⟩, 0, ⟨true, []⟩⟩
            [PEvent.timeUpdate 45 1000])).store
      = some (JSVal.record ⟨"u", 45, 3000⟩) :=
  unload_saves_last_reported_time ⟨"dQw4w9WgXcQ", ⟨"u", 0, 0⟩, 0, ⟨true, []⟩⟩
    [PEvent.timeUpdate 45 1000] 3000 (by decide) rfl (by norm_num [lastReported])

/-! ## Claim C10 -/

/-- C10: the teardown save happens only when the last reported playback
time is strictly positive; in particular after a callback sequence with
no positive periodic report, navigating away leaves the storage — hence
the stored record — untouched. -/
theorem unload_guard_positive_time :
    (∀ (now : ℤ) (s : PageState), ¬ 0 < s.currentTime →
        (handleBeforeUnload now s).store = s.store) ∧
    (∀ (s : PageState) (evs : List PEvent) (now : ℤ),
        s.currentTime = 0 → (∀ t m, PEvent.timeUpdate t m ∈ evs → t ≤ 0) →
        (handleBeforeUnload now (runEvents s evs)).store = (runEvents s evs).store) := by
  have part1 : ∀ (now : ℤ) (s : PageState), ¬ 0 < s.currentTime →
      (handleBeforeUnload now s).store = s.store := by
    intro now s hns
    unfold handleBeforeUnload
    rw [if_neg hns]
  refine ⟨part1, ?_⟩
  intro s evs now hct0 hall
  refine part1 now _ ?_
  rw [runEvents_currentTime]
  exact not_lt.mpr (lastReported_nonpos evs s.currentTime (le_of_eq hct0) hall)

/-- Witness for C10: with no positive report the storage is unchanged by
navigation. -/
theorem unload_guard_positive_time_witness :
    (handleBeforeUnload 5000 ⟨"dQw4w9WgXcQ", ⟨"u", 0, 0⟩, 0, ⟨true, []⟩⟩).store
      = (⟨true, []⟩ : Storage) :=
  unload_guard_positive_time.1 5000 ⟨"dQw4w9WgXcQ", ⟨"u", 0, 0⟩, 0, ⟨true, []⟩⟩
    (lt_irrefl 0)

/-! ## Claim C9 -/

/-- C9 counterexample: the form regex accepts
https://youtu.be/abcdefghijk&v=x (the trailing dot-star swallows &v=x),
yet getYouTubeIdFromUrl returns the empty string on it, because the
extractor takes the rightmost alternative &v= whose token x is too
short.  So form-level validation success does not imply extraction
success, and the could-not-extract branch of handleSaveUrl is reachable
from form-submitted URLs. -/
theorem form_accepts_but_extraction_fails_cex :
    formAccepts "https://youtu.be/abcdefghijk&v=x" = true ∧
    getYouTubeIdFromUrl "https://youtu.be/abcdefghijk&v=x" = "" := by
  constructor <;> decide

/-- C9 amended: for every URL accepted by the form regex in which nothing
follows the 11-character identifier (the remainder after the host
literal is exactly the identifier), extraction succeeds and returns that
identifier. -/
theorem form_accept_exact_implies_extraction (url : String) (r : List Char)
    (hp : formParse url.data = some r) (hacc : formAccepts url = true)
    (hlen : r.length = 11) :
    getYouTubeIdFromUrl url = String.mk r ∧ getYouTubeIdFromUrl url ≠ "" := by
  have hid : ∀ c ∈ r, isIdChar c = true := by
    unfold formAccepts at hacc
    rw [hp] at hacc
    simp only [Bool.and_eq_true, decide_eq_true_eq, List.all_eq_true] at hacc
    intro c hc
    exact hacc.1.2 c (by rw [List.take_of_length_le (le_of_eq hlen)]; exact hc)
  obtain ⟨sc, hs, w, hw, hp', hhp, heq⟩ := formParse_inv hp
  have hext : extractId url.data = r := by
    rcases hs with rfl | rfl | rfl <;> rcases hw with rfl | rfl <;>
        rcases hhp with rfl | rfl <;> rw [heq] <;>
      first
      | (apply extractId_of_scan _ r 9 hid hlen <;> rfl)
      | (apply extractId_of_scan _ r 13 hid hlen <;> rfl)
      | (apply extractId_of_scan _ r 16 hid hlen <;> rfl)
      | (apply extractId_of_scan _ r 17 hid hlen <;> rfl)
      | (apply extractId_of_scan _ r 20 hid hlen <;> rfl)
      | (apply extractId_of_scan _ r 21 hid hlen <;> rfl)
      | (apply extractId_of_scan _ r 24 hid hlen <;> rfl)
      | (apply extractId_of_scan _ r 27 hid hlen <;> rfl)
      | (apply extractId_of_scan _ r 28 hid hlen <;> rfl)
      | (apply extractId_of_scan _ r 31 hid hlen <;> rfl)
      | (apply extractId_of_scan _ r 32 hid hlen <;> rfl)
  constructor
  · show String.mk (extractId url.data) = String.mk r
    rw [hext]
  · show String.mk (extractId url.data) ≠ ""
    rw [hext]
    intro hemp
    have hr : r = [] := congrArg String.data hemp
    rw [hr] at hlen
    exact absurd hlen (by decide)

/-- Witness for the amended C9 at a concrete accepted URL with nothing
after the identifier. -/
theorem form_accept_exact_implies_extraction_witness :
    getYouTubeIdFromUrl "https://youtu.be/dQw4w9WgXcQ" = String.mk "dQw4w9WgXcQ".data ∧
    getYouTubeIdFromUrl "https://youtu.be/dQw4w9WgXcQ" ≠ "" :=
  form_accept_exact_implies_extraction "https://youtu.be/dQw4w9WgXcQ" "dQw4w9WgXcQ".data
    (by decide) (by decide) (by decide)
